import Mathlib

/-!
Verification development for the tunebox polyphonic synthesis engine.

The Rust source (src/synth.rs, src/synth/adsr.rs, src/synth/provider.rs) is
shallowly embedded here.  Machine floating point (f32) is modelled by exact
arithmetic over a linear ordered field `α` (instantiated at `ℚ` or `ℝ` in the
theorems); the transcendental float primitives used by the code (`sqrt`, `sin`,
`exp2` and the constant `TAU`) are passed in explicitly through a `FloatOps`
record (with `Real.sqrt` and friends as the intended interpretation), so that
every definition is executable and the structural behaviour of the engine does
not depend on the interpretation chosen for them.
-/

namespace Tunebox

section Defs

variable {α : Type} [LinearOrderedField α] [FloorRing α]

/-- The float primitives of the source that have no exact rational meaning:
`f32::sqrt`, `f32::sin`, `f32::exp2` and `std::f32::consts::TAU`. -/
structure FloatOps (α : Type) where
  sqrt : α → α
  sin : α → α
  exp2 : α → α
  tau : α

/-- `x.clamp(lo, hi)` for floats (with `lo ≤ hi`). -/
def clampf (x lo hi : α) : α := min (max x lo) hi

/-- Truncation toward zero, as float-to-float `trunc`. -/
def truncf (x : α) : α := if 0 ≤ x then (⌊x⌋ : α) else (⌈x⌉ : α)

/-- The `%` operator on floats: remainder with the sign of the dividend. -/
def fmod (x y : α) : α := x - y * truncf (x / y)

/-- `f32::fract`: `x - x.trunc()`. -/
def fractf (x : α) : α := x - truncf x

/-- `enum GateState { Low, RisingEdge, High, FallingEdge }` from adsr.rs. -/
inductive GateState
  | Low | RisingEdge | High | FallingEdge
deriving DecidableEq, Repr

/-- `GateState::is_rising_edge`. -/
def GateState.is_rising_edge : GateState → Bool
  | .RisingEdge => true
  | _ => false

/-- `GateState::is_falling_edge`. -/
def GateState.is_falling_edge : GateState → Bool
  | .FallingEdge => true
  | _ => false

/-- `GateState::is_highish`. -/
def GateState.is_highish : GateState → Bool
  | .RisingEdge => true
  | .High => true
  | _ => false

/-- `GateState::is_lowish`. -/
def GateState.is_lowish : GateState → Bool
  | .FallingEdge => true
  | .Low => true
  | _ => false

/-- `pub struct Gate(GateState)` from adsr.rs. -/
structure Gate where
  val : GateState
deriving DecidableEq, Repr

/-- `Gate::new`. -/
def Gate.new : Gate := ⟨GateState.Low⟩

/-- `Gate::update`: steps the edge detector once and returns the new state
(which is also the stored state). -/
def Gate.update (g : Gate) (new_value : Bool) : GateState × Gate :=
  let s :=
    match g.val with
    | .Low => if new_value then GateState.RisingEdge else .Low
    | .RisingEdge => if new_value then GateState.High else .FallingEdge
    | .High => if !new_value then GateState.FallingEdge else .High
    | .FallingEdge => if !new_value then GateState.Low else .RisingEdge
  (s, ⟨s⟩)

/-- `n` successive `Gate::update` calls with the same input value. -/
def Gate.iterate (g : Gate) (b : Bool) : ℕ → Gate
  | 0 => g
  | n + 1 => ((g.update b).2).iterate b n

/-- `enum State` of the ADSR envelope from adsr.rs. -/
inductive AdsrState
  | Silence | Attack | Decay | Sustain | Release
deriving DecidableEq, Repr

/-- `pub struct Adsr` from adsr.rs. -/
structure Adsr (α : Type) where
  state : AdsrState
  position : α
  gate : Gate
  gain_lvl : α
  atk_inc : α
  dec_inc : α
  sus_lvl : α
  rel_inc : α
deriving DecidableEq, Repr

/-- `Adsr::new(atk, dec, sus_lvl, rel, gain)`; `sqrt` is the float square
root used by `gain.sqrt()`. -/
def Adsr.new (sqrt : α → α) (atk dec sus_lvl rel gain : α) : Adsr α :=
  let sus_lvl := min (max sus_lvl 0) 1
  { state := .Silence
    position := 0
    gate := Gate.new
    gain_lvl := sqrt gain
    atk_inc := 1 / max atk 0.00001
    dec_inc := (1 - sus_lvl) / max dec 0.00001
    sus_lvl := sus_lvl
    rel_inc := sus_lvl / max rel 0.00001 }

/-- `Adsr::is_silent`. -/
def Adsr.is_silent (a : Adsr α) : Bool :=
  match a.state with
  | .Silence => true
  | _ => false

/-- `Adsr::set_gain`. -/
def Adsr.set_gain (sqrt : α → α) (a : Adsr α) (gain : α) : Adsr α :=
  { a with gain_lvl := sqrt gain }

/-- `Adsr::value`. -/
def Adsr.value (a : Adsr α) : α := a.position

/-- `Adsr::update(gate, dt)`: the five-state envelope transition, evaluated
once per sample. -/
def Adsr.update (a : Adsr α) (gate : GateState) (dt : α) : Adsr α :=
  match a.state with
  | .Silence =>
    if gate.is_rising_edge then
      { a with position := 0, state := .Attack }
    else
      { a with state := .Silence }
  | .Attack =>
    let position := a.position + a.atk_inc * dt
    if a.gain_lvl ≤ position then
      { a with position := min position 1, state := .Decay }
    else
      { a with position := position, state := .Attack }
  | .Decay =>
    let position := a.position - a.dec_inc * dt
    if gate.is_rising_edge then
      { a with position := position, state := .Attack }
    else if position ≤ a.sus_lvl * a.gain_lvl then
      { a with position := max position (a.sus_lvl * a.gain_lvl), state := .Sustain }
    else
      { a with position := position, state := .Decay }
  | .Sustain =>
    if gate.is_lowish then
      { a with state := .Release }
    else if gate.is_rising_edge then
      { a with state := .Attack }
    else
      { a with state := .Sustain }
  | .Release =>
    let position := a.position - a.rel_inc * dt
    if gate.is_rising_edge then
      { a with position := position, state := .Attack }
    else if position ≤ 0 then
      { a with position := 0, state := .Silence }
    else
      { a with position := position, state := .Release }

/-- `Adsr::advance(sample_dt, value)`: samples the envelope, steps the gate
and the state machine, and returns the *square* of the sampled position. -/
def Adsr.advance (a : Adsr α) (sample_dt : α) (value : Bool) : Adsr α × α :=
  let sample := a.position
  let g := a.gate.update value
  let a' := Adsr.update { a with gate := g.2 } g.1 sample_dt
  (a', sample * sample)

/-- `fn midi_note_to_freq(note: u8) -> f32` from provider.rs. -/
def midi_note_to_freq (F : FloatOps α) (note : ℕ) : α :=
  F.exp2 (((note : α) - 69) / 12) * 440

/-- `fn midi_velocity_to_gain(velocity: u8) -> f32` from provider.rs. -/
def midi_velocity_to_gain (velocity : ℕ) : α :=
  (((min velocity 127 : ℕ) : α) / 127) ^ 2

/-- The gain computed at the top of `VoiceBank::note_on`:
`midi_velocity_to_gain(velocity) * 0.7`. -/
def noteOnGain (velocity : ℕ) : α :=
  midi_velocity_to_gain velocity * 0.7

/-- `struct Voice` from provider.rs (`silence_timer` is a `u8`). -/
structure Voice (α : Type) where
  phase : α
  adsr : Adsr α
  active : Bool
  silence_timer : ℕ
  pan : α
  note : ℕ
deriving DecidableEq, Repr

/-- `Voice::new(note, gain, pan)`. -/
def Voice.new (F : FloatOps α) (note : ℕ) (gain pan : α) : Voice α :=
  { note := note
    adsr := Adsr.new F.sqrt 0.03 0.2 0.5 4.0 gain
    active := true
    silence_timer := 0
    pan := clampf (pan * 0.5 + 0.5) 0 1
    phase := 0 }

/-- `Voice::restart(gain)`. -/
def Voice.restart (F : FloatOps α) (v : Voice α) (gain : α) : Voice α :=
  { v with adsr := v.adsr.set_gain F.sqrt gain, active := true, silence_timer := 0 }

/-- `Voice::release`. -/
def Voice.release (v : Voice α) : Voice α :=
  { v with active := false }

/-- `Voice::is_silent`: `self.silence_timer > 40`. -/
def Voice.is_silent (v : Voice α) : Bool :=
  decide (40 < v.silence_timer)

/-- The per-frame loop of `Voice::update_and_fill`: advance the envelope,
evaluate the additive oscillator, and accumulate into the stereo frame. -/
def Voice.fillLoop (F : FloatOps α) (active : Bool) (l_gain r_gain inc sample_dt : α) :
    Adsr α → α → List (α × α) → Adsr α × α × List (α × α)
  | adsr, phase, [] => (adsr, phase, [])
  | adsr, phase, frame :: rest =>
    let s := adsr.advance sample_dt active
    let osc := (F.sin phase * 3 + F.sin (phase * 3) * 2 + F.sin (phase * 5) * 1) / 6
    let sample := osc * s.2
    let outFrame := (frame.1 + sample * l_gain, frame.2 + sample * r_gain)
    let r := Voice.fillLoop F active l_gain r_gain inc sample_dt s.1 (phase + inc) rest
    (r.1, r.2.1, outFrame :: r.2.2)

/-- `Voice::update_and_fill(out, sample_dt)`. -/
def Voice.update_and_fill (F : FloatOps α) (v : Voice α) (out : List (α × α))
    (sample_dt : α) : Voice α × List (α × α) :=
  let freq := midi_note_to_freq F v.note
  let inc := F.tau * freq * sample_dt
  let l_gain := F.sqrt v.pan
  let r_gain := F.sqrt (1 - v.pan)
  let r := Voice.fillLoop F v.active l_gain r_gain inc sample_dt v.adsr v.phase out
  let phase := fmod r.2.1 F.tau
  let silence_timer :=
    if r.1.is_silent then min (v.silence_timer + 1) 255 else v.silence_timer
  ({ v with adsr := r.1, phase := phase, silence_timer := silence_timer }, r.2.2)

/-- `struct VoiceBank` from provider.rs. -/
structure VoiceBank (α : Type) where
  voices : List (Voice α)
  pan_seed : α
deriving DecidableEq, Repr

/-- `VoiceBank::new`. -/
def VoiceBank.new : VoiceBank α :=
  { voices := [], pan_seed := 0 }

/-- The body of `VoiceBank::note_off`: release the first voice whose note
matches, leave everything else untouched. -/
def releaseFirst (note : ℕ) : List (Voice α) → List (Voice α)
  | [] => []
  | v :: rest =>
    if v.note = note then v.release :: rest else v :: releaseFirst note rest

/-- `VoiceBank::note_off(note)`. -/
def VoiceBank.note_off (B : VoiceBank α) (note : ℕ) : VoiceBank α :=
  { B with voices := releaseFirst note B.voices }

/-- The mutation of `VoiceBank::note_on` when a voice for the note already
exists: restart the first matching voice in place. -/
def restartFirst (F : FloatOps α) (gain : α) (note : ℕ) :
    List (Voice α) → List (Voice α)
  | [] => []
  | v :: rest =>
    if v.note = note then v.restart F gain :: rest
    else v :: restartFirst F gain note rest

/-- `VoiceBank::note_on(note, velocity)`. -/
def VoiceBank.note_on (F : FloatOps α) (B : VoiceBank α) (note velocity : ℕ) :
    VoiceBank α :=
  let gain := noteOnGain velocity
  if B.voices.any (fun v => v.note == note) then
    { B with voices := restartFirst F gain note B.voices }
  else
    let pan := (B.pan_seed - 0.5) * 1.2
    { voices := B.voices ++ [Voice.new F note gain pan]
      pan_seed := fractf (B.pan_seed + 2503.0 / 443.0) }

/-- `VoiceBank::clean_up`: `self.voices.retain(|v| !v.is_silent())`. -/
def VoiceBank.clean_up (B : VoiceBank α) : VoiceBank α :=
  { B with voices := B.voices.filter (fun v => !v.is_silent) }

/-- `enum SynthMessage` from provider.rs (the `SetUiFeedback` payload, an
optional shared handle, is modelled as `Option Unit`). -/
inductive SynthMessage
  | NoteOn (note velocity : ℕ)
  | NoteOff (note : ℕ)
  | SetUiFeedback (handle : Option Unit)
deriving DecidableEq, Repr

/-- `struct UiVoice` from provider.rs. -/
structure UiVoice (α : Type) where
  envelope : α
  pan : α
  note : ℕ
  active : Bool
deriving DecidableEq, Repr

/-- Stable insertion used to model `voices.sort_by_key(|v| v.note)`. -/
def insertByNote (u : UiVoice α) : List (UiVoice α) → List (UiVoice α)
  | [] => [u]
  | w :: rest =>
    if u.note ≤ w.note then u :: w :: rest else w :: insertByNote u rest

/-- `sort_by_key(|v| v.note)` on the snapshot list. -/
def sortByNote : List (UiVoice α) → List (UiVoice α)
  | [] => []
  | u :: rest => insertByNote u (sortByNote rest)

/-- `SynthProvider::collect_feedback`, as the snapshot it publishes when the
`try_lock` succeeds: one entry per live voice, pan remapped to `[-1,1]`,
sorted ascending by note. -/
def VoiceBank.collect_feedback (B : VoiceBank α) : List (UiVoice α) :=
  sortByNote (B.voices.map fun v =>
    { envelope := v.adsr.value
      pan := v.pan * 2 - 1
      note := v.note
      active := v.active })

/-- The message-draining loop of `SynthProvider::process_messages`, acting on
the voice bank (a `SetUiFeedback` message only swaps the feedback handle and
leaves the bank unchanged). -/
def VoiceBank.process_messages (F : FloatOps α) (B : VoiceBank α)
    (msgs : List SynthMessage) : VoiceBank α :=
  msgs.foldl
    (fun B msg =>
      match msg with
      | .NoteOff note => B.note_off note
      | .NoteOn note velocity => B.note_on F note velocity
      | .SetUiFeedback _ => B)
    B

/-- The per-voice loop of `SynthProvider::fill_buffer`: each voice in turn
updates itself and accumulates into the shared stereo buffer. -/
def fillVoices (F : FloatOps α) :
    List (Voice α) → List (α × α) → α → List (Voice α) × List (α × α)
  | [], out, _ => ([], out)
  | v :: rest, out, sample_dt =>
    let r := v.update_and_fill F out sample_dt
    let rr := fillVoices F rest r.2 sample_dt
    (r.1 :: rr.1, rr.2)

/-- The state of the voice bank inside `SynthProvider::fill_buffer` right
after all voices have rendered, before `clean_up` runs: messages drained,
buffer zeroed (`frames` stereo frames), every voice updated. -/
def VoiceBank.render_phase (F : FloatOps α) (B : VoiceBank α)
    (msgs : List SynthMessage) (frames : ℕ) (sample_dt : α) : VoiceBank α :=
  let B := B.process_messages F msgs
  { B with voices := (fillVoices F B.voices (List.replicate frames (0, 0)) sample_dt).1 }

/-- One invocation of `SynthProvider::fill_buffer`, as its effect on the voice
bank and the produced stereo buffer. -/
def VoiceBank.fill_buffer (F : FloatOps α) (B : VoiceBank α)
    (msgs : List SynthMessage) (frames : ℕ) (sample_dt : α) :
    VoiceBank α × List (α × α) :=
  let B1 := B.process_messages F msgs
  let r := fillVoices F B1.voices (List.replicate frames (0, 0)) sample_dt
  (VoiceBank.clean_up { B1 with voices := r.1 }, r.2)

/-- Bank states reachable by the audio thread: the empty bank, driven by any
sequence of `fill_buffer` invocations (each with an arbitrary batch of drained
messages, buffer length and sample rate). -/
inductive ReachableBank (F : FloatOps α) : VoiceBank α → Prop
  | init : ReachableBank F VoiceBank.new
  | step {B : VoiceBank α} (msgs : List SynthMessage) (frames : ℕ) (sample_dt : α) :
      ReachableBank F B → ReachableBank F (B.fill_buffer F msgs frames sample_dt).1

/-- The operations the control and audio threads perform on the voice bank,
for reachability over arbitrary interleavings. -/
inductive BankOp (α : Type)
  | noteOn (note velocity : ℕ)
  | noteOff (note : ℕ)
  | render (frames : ℕ) (sample_dt : α)
  | cleanUp

/-- Apply one `BankOp`. -/
def VoiceBank.applyOp (F : FloatOps α) (B : VoiceBank α) : BankOp α → VoiceBank α
  | .noteOn note velocity => B.note_on F note velocity
  | .noteOff note => B.note_off note
  | .render frames sample_dt =>
    { B with voices := (fillVoices F B.voices (List.replicate frames (0, 0)) sample_dt).1 }
  | .cleanUp => B.clean_up

/-- Run a sequence of `BankOp`s from the empty bank. -/
def VoiceBank.runOps (F : FloatOps α) (ops : List (BankOp α)) : VoiceBank α :=
  ops.foldl (VoiceBank.applyOp F) VoiceBank.new

/-- The command queue of `init_synth`: `sync_channel(128)`. Modelled from
`std::sync::mpsc`: a send on a full bounded channel blocks the caller until
the receiver drains a slot (it neither drops the message nor returns). -/
inductive SendResult
  | sent (queue : List SynthMessage)
  | wouldBlock
deriving DecidableEq, Repr

/-- `SyncSender::send` on a channel of capacity `bound`, acting on the queue
of in-flight messages: enqueue when below capacity, block when full. -/
def syncSend (bound : ℕ) (queue : List SynthMessage) (m : SynthMessage) : SendResult :=
  if queue.length < bound then .sent (queue ++ [m]) else .wouldBlock

/-- The channel capacity fixed by `init_synth`: `sync_channel(128)`. -/
def synthChannelBound : ℕ := 128

/-- `SynthController::send`: a blocking `send` on the bounded channel
(the `.unwrap()` can panic only if the receiver was dropped). -/
def SynthController.send (queue : List SynthMessage) (msg : SynthMessage) : SendResult :=
  syncSend synthChannelBound queue msg

/-- `SynthController::note_on`. -/
def SynthController.note_on (queue : List SynthMessage) (note velocity : ℕ) : SendResult :=
  SynthController.send queue (.NoteOn note velocity)

/-- `SynthController::note_off`. -/
def SynthController.note_off (queue : List SynthMessage) (note : ℕ) : SendResult :=
  SynthController.send queue (.NoteOff note)

/-- The send performed by `SynthController::enable_ui_feedback`. -/
def SynthController.enable_ui_feedback (queue : List SynthMessage) : SendResult :=
  SynthController.send queue (.SetUiFeedback (some ()))

/-- A call made to a live `Adsr` by its owner: `advance(dt, held)` from the
render loop, or `set_gain` from a re-strike (`Voice::restart`). -/
inductive AdsrCall (α : Type)
  | advance (dt : α) (held : Bool)
  | setGain (gain : α)

/-- Run a sequence of calls against an ADSR. -/
def Adsr.runCalls (sqrt : α → α) (a : Adsr α) : List (AdsrCall α) → Adsr α
  | [] => a
  | .advance dt held :: rest => Adsr.runCalls sqrt (a.advance dt held).1 rest
  | .setGain g :: rest => Adsr.runCalls sqrt (a.set_gain sqrt g) rest

/-- The largest peak level stored over a call sequence: the initial gain's
root joined with the root of every `set_gain` argument. -/
def gainBound (sqrt : α → α) (gain0 : α) : List (AdsrCall α) → α
  | [] => sqrt gain0
  | .advance _ _ :: rest => gainBound sqrt gain0 rest
  | .setGain g :: rest => max (sqrt g) (gainBound sqrt gain0 rest)

/-- The position invariant maintained by the envelope state machine:
position pinned at 0 in `Silence`, nonnegative in the decaying states, and
within `[lo, hi]` everywhere. -/
def AdsrInv (a : Adsr α) (lo hi : α) : Prop :=
  (a.state = .Silence → a.position = 0) ∧
  ((a.state = .Decay ∨ a.state = .Sustain ∨ a.state = .Release) → 0 ≤ a.position) ∧
  lo ≤ a.position ∧ a.position ≤ hi

end Defs

/-- A concrete (dummy) interpretation of the float primitives, used to
instantiate structural statements at `ℚ`; the structural claims proved below
hold for every interpretation, this one merely makes witnesses computable. -/
def qOps : FloatOps ℚ := ⟨fun _ => 0, fun _ => 0, fun _ => 0, 0⟩

set_option linter.unusedSectionVars false

section Lemmas

variable {α : Type} [LinearOrderedField α] [FloorRing α]

lemma releaseFirst_of_not_mem (note : ℕ) (vs : List (Voice α))
    (h : ∀ v ∈ vs, v.note ≠ note) : releaseFirst note vs = vs := by
  induction vs with
  | nil => rfl
  | cons v rest ih =>
    simp only [releaseFirst, if_neg (h v (List.mem_cons_self v rest))]
    rw [ih fun w hw => h w (List.mem_cons_of_mem v hw)]

lemma gate_update_fst (g : Gate) (b : Bool) :
    (g.update b).1 = (g.update b).2.val := rfl

lemma gate_iterate_two (s : GateState) (b : Bool) :
    ((Gate.mk s).iterate b 2).val = if b then GateState.High else GateState.Low := by
  cases s <;> cases b <;> rfl

lemma gate_iterate_absorb (b : Bool) (n : ℕ) :
    ((Gate.mk (if b then GateState.High else GateState.Low)).iterate b n).val =
      if b then GateState.High else GateState.Low := by
  induction n with
  | zero => rfl
  | succ n ih =>
    cases b <;> simpa [Gate.iterate, Gate.update] using ih

lemma restartFirst_eq_set (F : FloatOps α) (gain : α) (note : ℕ)
    (vs : List (Voice α)) (h : ∃ v ∈ vs, v.note = note) :
    ∃ i, ∃ hi : i < vs.length,
      (vs.get ⟨i, hi⟩).note = note ∧
      restartFirst F gain note vs = vs.set i ((vs.get ⟨i, hi⟩).restart F gain) := by
  induction vs with
  | nil => simp at h
  | cons v rest ih =>
    by_cases hv : v.note = note
    · exact ⟨0, Nat.succ_pos _, hv, by simp [restartFirst, hv]⟩
    · obtain ⟨w, hw, hwn⟩ := h
      rcases List.mem_cons.1 hw with rfl | hw2
      · exact absurd hwn hv
      · obtain ⟨i, hi, hnote, heq⟩ := ih ⟨w, hw2, hwn⟩
        exact ⟨i + 1, Nat.succ_lt_succ hi, hnote, by simp [restartFirst, hv, heq]⟩

lemma update_and_fill_note (F : FloatOps α) (v : Voice α) (out : List (α × α))
    (sample_dt : α) : ((v.update_and_fill F out sample_dt).1).note = v.note := rfl

lemma fillVoices_map_note (F : FloatOps α) (vs : List (Voice α))
    (out : List (α × α)) (sample_dt : α) :
    ((fillVoices F vs out sample_dt).1).map (·.note) = vs.map (·.note) := by
  induction vs generalizing out with
  | nil => rfl
  | cons v rest ih => simp [fillVoices, ih, update_and_fill_note]

lemma releaseFirst_map_note (note : ℕ) (vs : List (Voice α)) :
    (releaseFirst note vs).map (·.note) = vs.map (·.note) := by
  induction vs with
  | nil => rfl
  | cons v rest ih =>
    by_cases hv : v.note = note <;> simp [releaseFirst, hv, Voice.release, ih]

lemma restartFirst_map_note (F : FloatOps α) (gain : α) (note : ℕ)
    (vs : List (Voice α)) :
    (restartFirst F gain note vs).map (·.note) = vs.map (·.note) := by
  induction vs with
  | nil => rfl
  | cons v rest ih =>
    by_cases hv : v.note = note <;>
      simp [restartFirst, hv, Voice.restart, Adsr.set_gain, ih]

lemma note_on_nodup (F : FloatOps α) (B : VoiceBank α) (note velocity : ℕ)
    (h : (B.voices.map (·.note)).Nodup) :
    ((B.note_on F note velocity).voices.map (·.note)).Nodup := by
  unfold VoiceBank.note_on
  by_cases hany : B.voices.any (fun v => v.note == note)
  · simpa [hany, restartFirst_map_note]
  · have hfresh : ∀ n ∈ B.voices.map (·.note), n ≠ note := by
      intro n hn
      obtain ⟨v, hv, rfl⟩ := List.mem_map.1 hn
      intro hcontra
      exact hany (List.any_eq_true.2 ⟨v, hv, by simp [hcontra]⟩)
    simp only [hany, Bool.false_eq_true, if_false, List.map_append, List.map_cons,
      List.map_nil]
    rw [List.nodup_append]
    refine ⟨h, List.nodup_singleton _, ?_⟩
    intro n hn hmem
    simp only [List.mem_singleton] at hmem
    exact hfresh n hn (by simpa [Voice.new] using hmem)

lemma applyOp_nodup (F : FloatOps α) (B : VoiceBank α) (op : BankOp α)
    (h : (B.voices.map (·.note)).Nodup) :
    (((B.applyOp F op).voices).map (·.note)).Nodup := by
  cases op with
  | noteOn note velocity => exact note_on_nodup F B note velocity h
  | noteOff note => simpa [VoiceBank.applyOp, VoiceBank.note_off, releaseFirst_map_note]
  | render frames sample_dt => simpa [VoiceBank.applyOp, fillVoices_map_note]
  | cleanUp =>
    simp only [VoiceBank.applyOp, VoiceBank.clean_up]
    exact ((List.filter_sublist _).map _).nodup h

lemma clean_up_timer_le (B : VoiceBank α) :
    ∀ v ∈ B.clean_up.voices, v.silence_timer ≤ 40 := by
  intro v hv
  have := List.of_mem_filter hv
  simpa [Voice.is_silent, Nat.not_lt] using this

lemma releaseFirst_timer_le (note : ℕ) (vs : List (Voice α))
    (h : ∀ v ∈ vs, v.silence_timer ≤ 40) :
    ∀ v' ∈ releaseFirst note vs, v'.silence_timer ≤ 40 := by
  induction vs with
  | nil => simp [releaseFirst]
  | cons v rest ih =>
    intro v' hv'
    simp only [releaseFirst] at hv'
    by_cases hn : v.note = note
    · simp only [if_pos hn, List.mem_cons] at hv'
      rcases hv' with rfl | hv'
      · exact h v (by simp)
      · exact h v' (by simp [hv'])
    · simp only [if_neg hn, List.mem_cons] at hv'
      rcases hv' with rfl | hv'
      · exact h v' (by simp)
      · exact ih (fun w hw => h w (by simp [hw])) v' hv'

lemma restartFirst_timer_le (F : FloatOps α) (gain : α) (note : ℕ)
    (vs : List (Voice α)) (h : ∀ v ∈ vs, v.silence_timer ≤ 40) :
    ∀ v' ∈ restartFirst F gain note vs, v'.silence_timer ≤ 40 := by
  induction vs with
  | nil => simp [restartFirst]
  | cons v rest ih =>
    intro v' hv'
    simp only [restartFirst] at hv'
    by_cases hn : v.note = note
    · simp only [if_pos hn, List.mem_cons] at hv'
      rcases hv' with rfl | hv'
      · simp [Voice.restart]
      · exact h v' (by simp [hv'])
    · simp only [if_neg hn, List.mem_cons] at hv'
      rcases hv' with rfl | hv'
      · exact h v' (by simp)
      · exact ih (fun w hw => h w (by simp [hw])) v' hv'

lemma note_on_timer_le (F : FloatOps α) (B : VoiceBank α) (note velocity : ℕ)
    (h : ∀ v ∈ B.voices, v.silence_timer ≤ 40) :
    ∀ v' ∈ (B.note_on F note velocity).voices, v'.silence_timer ≤ 40 := by
  unfold VoiceBank.note_on
  by_cases hany : B.voices.any (fun v => v.note == note)
  · simpa [hany] using restartFirst_timer_le F (noteOnGain velocity) note B.voices h
  · intro v' hv'
    simp only [hany, Bool.false_eq_true, if_false, List.mem_append,
      List.mem_singleton] at hv'
    rcases hv' with hv' | rfl
    · exact h v' hv'
    · simp [Voice.new]

lemma process_messages_timer_le (F : FloatOps α) (B : VoiceBank α)
    (msgs : List SynthMessage) (h : ∀ v ∈ B.voices, v.silence_timer ≤ 40) :
    ∀ v' ∈ (B.process_messages F msgs).voices, v'.silence_timer ≤ 40 := by
  induction msgs generalizing B with
  | nil => exact h
  | cons msg rest ih =>
    cases msg with
    | NoteOn note velocity =>
      exact ih (B.note_on F note velocity) (note_on_timer_le F B note velocity h)
    | NoteOff note =>
      exact ih (B.note_off note) (releaseFirst_timer_le note B.voices h)
    | SetUiFeedback handle => exact ih B h

lemma mem_fillVoices (F : FloatOps α) (vs : List (Voice α)) (out : List (α × α))
    (sample_dt : α) :
    ∀ v' ∈ (fillVoices F vs out sample_dt).1, ∃ v ∈ vs, ∃ buf,
      v' = (v.update_and_fill F buf sample_dt).1 := by
  induction vs generalizing out with
  | nil => simp [fillVoices]
  | cons v rest ih =>
    intro v' hv'
    simp only [fillVoices, List.mem_cons] at hv'
    rcases hv' with rfl | hv'
    · exact ⟨v, by simp, out, rfl⟩
    · obtain ⟨w, hw, buf, hbuf⟩ := ih _ v' hv'
      exact ⟨w, by simp [hw], buf, hbuf⟩

lemma update_and_fill_timer (F : FloatOps α) (v : Voice α) (out : List (α × α))
    (sample_dt : α) (h : v.silence_timer ≤ 40)
    (h40 : 40 < ((v.update_and_fill F out sample_dt).1).silence_timer) :
    ((v.update_and_fill F out sample_dt).1).adsr.is_silent = true := by
  by_cases hs :
      (Voice.fillLoop F v.active (F.sqrt v.pan) (F.sqrt (1 - v.pan))
        (F.tau * midi_note_to_freq F v.note * sample_dt) sample_dt v.adsr v.phase
        out).1.is_silent
  · simpa [Voice.update_and_fill] using hs
  · exfalso
    have : ((v.update_and_fill F out sample_dt).1).silence_timer = v.silence_timer := by
      simp [Voice.update_and_fill, hs]
    omega

lemma reachable_timer_le (F : FloatOps α) (B : VoiceBank α)
    (h : ReachableBank F B) : ∀ v ∈ B.voices, v.silence_timer ≤ 40 := by
  induction h with
  | init => simp [VoiceBank.new]
  | step msgs frames sample_dt _ _ => exact clean_up_timer_le _

lemma clampf_eq_self (x lo hi : α) (h1 : lo ≤ x) (h2 : x ≤ hi) :
    clampf x lo hi = x := by
  rw [clampf, max_eq_left h1, min_eq_left h2]

lemma clampf_unit_mem (x : α) : 0 ≤ clampf x 0 1 ∧ clampf x 0 1 ≤ 1 := by
  constructor
  · exact le_min (le_max_right x 0) zero_le_one
  · exact min_le_right _ _

lemma fractf_of_nonneg (x : α) (hx : 0 ≤ x) :
    fractf x = x - (⌊x⌋ : α) := by
  rw [fractf, truncf, if_pos hx]

lemma fractf_bounds (x : α) (hx : 0 ≤ x) :
    0 ≤ fractf x ∧ fractf x < 1 := by
  rw [fractf_of_nonneg x hx]
  constructor
  · exact sub_nonneg.2 (Int.floor_le x)
  · have := Int.lt_floor_add_one x
    linarith

lemma update_and_fill_pan (F : FloatOps α) (v : Voice α) (out : List (α × α))
    (sample_dt : α) : ((v.update_and_fill F out sample_dt).1).pan = v.pan := rfl

lemma releaseFirst_pan (note : ℕ) (vs : List (Voice α)) :
    ∀ v' ∈ releaseFirst note vs, ∃ v ∈ vs, v'.pan = v.pan := by
  induction vs with
  | nil => simp [releaseFirst]
  | cons v rest ih =>
    intro v' hv'
    simp only [releaseFirst] at hv'
    by_cases hn : v.note = note
    · simp only [if_pos hn, List.mem_cons] at hv'
      rcases hv' with rfl | hv'
      · exact ⟨v, by simp, rfl⟩
      · exact ⟨v', by simp [hv'], rfl⟩
    · simp only [if_neg hn, List.mem_cons] at hv'
      rcases hv' with rfl | hv'
      · exact ⟨v', by simp, rfl⟩
      · obtain ⟨w, hw, hwp⟩ := ih v' hv'
        exact ⟨w, by simp [hw], hwp⟩

lemma restartFirst_pan (F : FloatOps α) (gain : α) (note : ℕ)
    (vs : List (Voice α)) :
    ∀ v' ∈ restartFirst F gain note vs, ∃ v ∈ vs, v'.pan = v.pan := by
  induction vs with
  | nil => simp [restartFirst]
  | cons v rest ih =>
    intro v' hv'
    simp only [restartFirst] at hv'
    by_cases hn : v.note = note
    · simp only [if_pos hn, List.mem_cons] at hv'
      rcases hv' with rfl | hv'
      · exact ⟨v, by simp, rfl⟩
      · exact ⟨v', by simp [hv'], rfl⟩
    · simp only [if_neg hn, List.mem_cons] at hv'
      rcases hv' with rfl | hv'
      · exact ⟨v', by simp, rfl⟩
      · obtain ⟨w, hw, hwp⟩ := ih v' hv'
        exact ⟨w, by simp [hw], hwp⟩

lemma applyOp_pan_inv (F : FloatOps α) (B : VoiceBank α) (op : BankOp α)
    (h : (0 ≤ B.pan_seed ∧ B.pan_seed < 1) ∧
      ∀ v ∈ B.voices, 0 ≤ v.pan ∧ v.pan ≤ 1) :
    (0 ≤ (B.applyOp F op).pan_seed ∧ (B.applyOp F op).pan_seed < 1) ∧
      ∀ v ∈ (B.applyOp F op).voices, 0 ≤ v.pan ∧ v.pan ≤ 1 := by
  obtain ⟨⟨hs0, hs1⟩, hpan⟩ := h
  cases op with
  | noteOn note velocity =>
    simp only [VoiceBank.applyOp]
    unfold VoiceBank.note_on
    by_cases hany : B.voices.any (fun v => v.note == note)
    · simp only [hany, if_true]
      refine ⟨⟨hs0, hs1⟩, ?_⟩
      intro v' hv'
      obtain ⟨w, hw, hwp⟩ := restartFirst_pan F _ note B.voices v' hv'
      rw [hwp]
      exact hpan w hw
    · simp only [hany, Bool.false_eq_true, if_false]
      refine ⟨?_, ?_⟩
      · exact fractf_bounds _ (add_nonneg hs0 (by norm_num))
      · intro v' hv'
        simp only [List.mem_append, List.mem_singleton] at hv'
        rcases hv' with hv' | rfl
        · exact hpan v' hv'
        · exact clampf_unit_mem _
  | noteOff note =>
    simp only [VoiceBank.applyOp]
    refine ⟨⟨hs0, hs1⟩, ?_⟩
    intro v' hv'
    obtain ⟨w, hw, hwp⟩ := releaseFirst_pan note B.voices v' hv'
    rw [hwp]
    exact hpan w hw
  | render frames sample_dt =>
    simp only [VoiceBank.applyOp]
    refine ⟨⟨hs0, hs1⟩, ?_⟩
    intro v' hv'
    obtain ⟨w, hw, buf, rfl⟩ := mem_fillVoices F B.voices _ sample_dt v' hv'
    rw [update_and_fill_pan]
    exact hpan w hw
  | cleanUp =>
    simp only [VoiceBank.applyOp, VoiceBank.clean_up]
    exact ⟨⟨hs0, hs1⟩, fun v hv => hpan v (List.mem_of_mem_filter hv)⟩

lemma runOps_pan_inv (F : FloatOps α) (ops : List (BankOp α)) :
    (0 ≤ (VoiceBank.runOps F ops).pan_seed ∧ (VoiceBank.runOps F ops).pan_seed < 1) ∧
      ∀ v ∈ (VoiceBank.runOps F ops).voices, 0 ≤ v.pan ∧ v.pan ≤ 1 := by
  suffices hgen : ∀ (B : VoiceBank α),
      ((0 ≤ B.pan_seed ∧ B.pan_seed < 1) ∧ ∀ v ∈ B.voices, 0 ≤ v.pan ∧ v.pan ≤ 1) →
      ((0 ≤ (ops.foldl (VoiceBank.applyOp F) B).pan_seed ∧
          (ops.foldl (VoiceBank.applyOp F) B).pan_seed < 1) ∧
        ∀ v ∈ (ops.foldl (VoiceBank.applyOp F) B).voices, 0 ≤ v.pan ∧ v.pan ≤ 1) by
    exact hgen VoiceBank.new (by simp [VoiceBank.new])
  induction ops with
  | nil => exact fun B h => h
  | cons op rest ih => exact fun B h => ih (B.applyOp F op) (applyOp_pan_inv F B op h)

lemma mem_insertByNote (u w : UiVoice α) (l : List (UiVoice α)) :
    w ∈ insertByNote u l ↔ w = u ∨ w ∈ l := by
  induction l with
  | nil => simp [insertByNote]
  | cons x rest ih =>
    by_cases hle : u.note ≤ x.note
    · simp [insertByNote, hle]
    · simp only [insertByNote, if_neg hle, List.mem_cons, ih]
      tauto

lemma mem_sortByNote (u : UiVoice α) (l : List (UiVoice α)) :
    u ∈ sortByNote l ↔ u ∈ l := by
  induction l with
  | nil => simp [sortByNote]
  | cons x rest ih =>
    simp only [sortByNote, mem_insertByNote, List.mem_cons, ih]

lemma adsr_state_elim {P : Prop} {s t : AdsrState} (hne : s ≠ t) : s = t → P :=
  fun h => absurd h hne

lemma adsr_not_decaying {P : Prop} {s : AdsrState}
    (h1 : s ≠ .Decay) (h2 : s ≠ .Sustain) (h3 : s ≠ .Release) :
    (s = .Decay ∨ s = .Sustain ∨ s = .Release) → P := by
  intro h
  rcases h with h | h | h
  exacts [absurd h h1, absurd h h2, absurd h h3]

lemma update_inv (st : AdsrState) (pos : ℚ) (g : Gate) (gl ai di sl ri : ℚ)
    (gs : GateState) (dt D G : ℚ)
    (hdt0 : 0 ≤ dt) (hdtD : dt ≤ D) (hD : 0 ≤ D)
    (hsl0 : 0 ≤ sl) (hsl1 : sl ≤ 1)
    (hai : 0 ≤ ai) (hdi : 0 ≤ di) (hri : 0 ≤ ri)
    (hgl0 : 0 ≤ gl) (hglG : gl ≤ G)
    (hinv : AdsrInv (Adsr.mk st pos g gl ai di sl ri) (-(max di ri) * D) (max 1 G)) :
    AdsrInv ((Adsr.mk st pos g gl ai di sl ri).update gs dt)
      (-(max di ri) * D) (max 1 G) := by
  obtain ⟨hsil, hpos0, hlo, hhi⟩ := hinv
  dsimp only at hsil hpos0 hlo hhi
  have hmax0 : (0:ℚ) ≤ max di ri := le_trans hdi (le_max_left di ri)
  have hlo0 : -(max di ri) * D ≤ 0 := by
    have : 0 ≤ max di ri * D := mul_nonneg hmax0 hD
    linarith
  have hhi1 : (1:ℚ) ≤ max 1 G := le_max_left 1 G
  have hhi0 : (0:ℚ) ≤ max 1 G := le_trans zero_le_one hhi1
  have hGhi : G ≤ max 1 G := le_max_right 1 G
  have hdec_step : di * dt ≤ max di ri * D :=
    mul_le_mul (le_max_left di ri) hdtD hdt0 hmax0
  have hrel_step : ri * dt ≤ max di ri * D :=
    mul_le_mul (le_max_right di ri) hdtD hdt0 hmax0
  have hdt_di : 0 ≤ di * dt := mul_nonneg hdi hdt0
  have hdt_ri : 0 ≤ ri * dt := mul_nonneg hri hdt0
  have hdt_ai : 0 ≤ ai * dt := mul_nonneg hai hdt0
  have hslgl0 : 0 ≤ sl * gl := mul_nonneg hsl0 hgl0
  have hslgl : sl * gl ≤ max 1 G :=
    le_trans (le_trans (mul_le_of_le_one_left hgl0 hsl1) hglG) hGhi
  cases st with
  | Silence =>
    have hp := hsil rfl
    have hkeep : AdsrInv (Adsr.mk .Silence pos g gl ai di sl ri)
        (-(max di ri) * D) (max 1 G) :=
      ⟨fun _ => hp, adsr_not_decaying (by simp [Adsr.update, GateState.is_rising_edge, GateState.is_lowish]) (by simp [Adsr.update, GateState.is_rising_edge, GateState.is_lowish]) (by simp [Adsr.update, GateState.is_rising_edge, GateState.is_lowish]),
        hlo, hhi⟩
    cases gs with
    | RisingEdge =>
      exact ⟨adsr_state_elim (by simp [Adsr.update, GateState.is_rising_edge, GateState.is_lowish]),
        adsr_not_decaying (by simp [Adsr.update, GateState.is_rising_edge, GateState.is_lowish]) (by simp [Adsr.update, GateState.is_rising_edge, GateState.is_lowish]) (by simp [Adsr.update, GateState.is_rising_edge, GateState.is_lowish]), hlo0, hhi0⟩
    | Low => exact hkeep
    | High => exact hkeep
    | FallingEdge => exact hkeep
  | Attack =>
    show AdsrInv (if gl ≤ pos + ai * dt then _ else _) _ _
    by_cases hc : gl ≤ pos + ai * dt
    · rw [if_pos hc]
      have hm0 : (0:ℚ) ≤ min (pos + ai * dt) 1 :=
        le_min (le_trans hgl0 hc) zero_le_one
      exact ⟨adsr_state_elim (by simp [Adsr.update, GateState.is_rising_edge, GateState.is_lowish]), fun _ => hm0, le_trans hlo0 hm0,
        le_trans (min_le_right _ 1) hhi1⟩
    · rw [if_neg hc]
      have hlt := not_le.1 hc
      have h1 : -(max di ri) * D ≤ pos + ai * dt := by linarith
      have h2 : pos + ai * dt ≤ max 1 G := by linarith
      exact ⟨adsr_state_elim (by simp [Adsr.update, GateState.is_rising_edge, GateState.is_lowish]),
        adsr_not_decaying (by simp [Adsr.update, GateState.is_rising_edge, GateState.is_lowish]) (by simp [Adsr.update, GateState.is_rising_edge, GateState.is_lowish]) (by simp [Adsr.update, GateState.is_rising_edge, GateState.is_lowish]), h1, h2⟩
  | Decay =>
    have hp0 : 0 ≤ pos := hpos0 (Or.inl rfl)
    have hlo' : -(max di ri) * D ≤ pos - di * dt := by linarith
    have hhi' : pos - di * dt ≤ max 1 G := by linarith
    have hAtt : AdsrInv (Adsr.mk .Attack (pos - di * dt) g gl ai di sl ri)
        (-(max di ri) * D) (max 1 G) :=
      ⟨adsr_state_elim (by simp [Adsr.update, GateState.is_rising_edge, GateState.is_lowish]),
        adsr_not_decaying (by simp [Adsr.update, GateState.is_rising_edge, GateState.is_lowish]) (by simp [Adsr.update, GateState.is_rising_edge, GateState.is_lowish]) (by simp [Adsr.update, GateState.is_rising_edge, GateState.is_lowish]), hlo', hhi'⟩
    have hrest : AdsrInv
        (if pos - di * dt ≤ sl * gl then
          Adsr.mk .Sustain (max (pos - di * dt) (sl * gl)) g gl ai di sl ri
        else Adsr.mk .Decay (pos - di * dt) g gl ai di sl ri)
        (-(max di ri) * D) (max 1 G) := by
      by_cases hc : pos - di * dt ≤ sl * gl
      · rw [if_pos hc]
        have hm0 : (0:ℚ) ≤ max (pos - di * dt) (sl * gl) :=
          le_trans hslgl0 (le_max_right _ _)
        exact ⟨adsr_state_elim (by simp [Adsr.update, GateState.is_rising_edge, GateState.is_lowish]), fun _ => hm0, le_trans hlo0 hm0,
          max_le hhi' hslgl⟩
      · rw [if_neg hc]
        have hlt := not_le.1 hc
        have hp' : (0:ℚ) ≤ pos - di * dt := le_trans hslgl0 (le_of_lt hlt)
        exact ⟨adsr_state_elim (by simp [Adsr.update, GateState.is_rising_edge, GateState.is_lowish]), fun _ => hp', hlo', hhi'⟩
    cases gs with
    | RisingEdge => exact hAtt
    | Low => exact hrest
    | High => exact hrest
    | FallingEdge => exact hrest
  | Sustain =>
    have hp0 : 0 ≤ pos := hpos0 (Or.inr (Or.inl rfl))
    have hRel : AdsrInv (Adsr.mk .Release pos g gl ai di sl ri)
        (-(max di ri) * D) (max 1 G) :=
      ⟨adsr_state_elim (by simp [Adsr.update, GateState.is_rising_edge, GateState.is_lowish]), fun _ => hp0, hlo, hhi⟩
    cases gs with
    | Low => exact hRel
    | FallingEdge => exact hRel
    | RisingEdge =>
      exact ⟨adsr_state_elim (by simp [Adsr.update, GateState.is_rising_edge, GateState.is_lowish]),
        adsr_not_decaying (by simp [Adsr.update, GateState.is_rising_edge, GateState.is_lowish]) (by simp [Adsr.update, GateState.is_rising_edge, GateState.is_lowish]) (by simp [Adsr.update, GateState.is_rising_edge, GateState.is_lowish]), hlo, hhi⟩
    | High =>
      exact ⟨adsr_state_elim (by simp [Adsr.update, GateState.is_rising_edge, GateState.is_lowish]), fun _ => hp0, hlo, hhi⟩
  | Release =>
    have hp0 : 0 ≤ pos := hpos0 (Or.inr (Or.inr rfl))
    have hlo' : -(max di ri) * D ≤ pos - ri * dt := by linarith
    have hhi' : pos - ri * dt ≤ max 1 G := by linarith
    have hAtt : AdsrInv (Adsr.mk .Attack (pos - ri * dt) g gl ai di sl ri)
        (-(max di ri) * D) (max 1 G) :=
      ⟨adsr_state_elim (by simp [Adsr.update, GateState.is_rising_edge, GateState.is_lowish]),
        adsr_not_decaying (by simp [Adsr.update, GateState.is_rising_edge, GateState.is_lowish]) (by simp [Adsr.update, GateState.is_rising_edge, GateState.is_lowish]) (by simp [Adsr.update, GateState.is_rising_edge, GateState.is_lowish]), hlo', hhi'⟩
    have hrest : AdsrInv
        (if pos - ri * dt ≤ 0 then Adsr.mk .Silence 0 g gl ai di sl ri
          else Adsr.mk .Release (pos - ri * dt) g gl ai di sl ri)
        (-(max di ri) * D) (max 1 G) := by
      by_cases hc : pos - ri * dt ≤ 0
      · rw [if_pos hc]
        exact ⟨fun _ => rfl,
          adsr_not_decaying (by simp [Adsr.update, GateState.is_rising_edge, GateState.is_lowish]) (by simp [Adsr.update, GateState.is_rising_edge, GateState.is_lowish]) (by simp [Adsr.update, GateState.is_rising_edge, GateState.is_lowish]), hlo0, hhi0⟩
      · rw [if_neg hc]
        have hlt := not_le.1 hc
        exact ⟨adsr_state_elim (by simp [Adsr.update, GateState.is_rising_edge, GateState.is_lowish]), fun _ => le_of_lt hlt, hlo', hhi'⟩
    cases gs with
    | RisingEdge => exact hAtt
    | Low => exact hrest
    | High => exact hrest
    | FallingEdge => exact hrest

lemma advance_params (a : Adsr ℚ) (dt : ℚ) (held : Bool) :
    (a.advance dt held).1.atk_inc = a.atk_inc ∧
    (a.advance dt held).1.dec_inc = a.dec_inc ∧
    (a.advance dt held).1.sus_lvl = a.sus_lvl ∧
    (a.advance dt held).1.rel_inc = a.rel_inc ∧
    (a.advance dt held).1.gain_lvl = a.gain_lvl := by
  obtain ⟨st, pos, g, gl, ai, di, sl, ri⟩ := a
  cases st <;> simp only [Adsr.advance, Adsr.update] <;> split_ifs <;> simp

lemma advance_inv (a : Adsr ℚ) (held : Bool) (dt D G : ℚ)
    (hdt0 : 0 ≤ dt) (hdtD : dt ≤ D) (hD : 0 ≤ D)
    (hsl0 : 0 ≤ a.sus_lvl) (hsl1 : a.sus_lvl ≤ 1)
    (hai : 0 ≤ a.atk_inc) (hdi : 0 ≤ a.dec_inc) (hri : 0 ≤ a.rel_inc)
    (hgl0 : 0 ≤ a.gain_lvl) (hglG : a.gain_lvl ≤ G)
    (hinv : AdsrInv a (-(max a.dec_inc a.rel_inc) * D) (max 1 G)) :
    AdsrInv (a.advance dt held).1 (-(max a.dec_inc a.rel_inc) * D) (max 1 G) := by
  obtain ⟨st, pos, g, gl, ai, di, sl, ri⟩ := a
  exact update_inv st pos (g.update held).2 gl ai di sl ri (g.update held).1
    dt D G hdt0 hdtD hD hsl0 hsl1 hai hdi hri hgl0 hglG hinv

lemma runCalls_inv (sqrt : ℚ → ℚ) (D G ai di sl ri : ℚ) (hD : 0 ≤ D)
    (hsl0 : 0 ≤ sl) (hsl1 : sl ≤ 1) (hai : 0 ≤ ai) (hdi : 0 ≤ di)
    (hri : 0 ≤ ri) (calls : List (AdsrCall ℚ)) :
    ∀ a : Adsr ℚ, a.atk_inc = ai → a.dec_inc = di → a.sus_lvl = sl →
      a.rel_inc = ri →
      (∀ dt held, AdsrCall.advance dt held ∈ calls → 0 ≤ dt ∧ dt ≤ D) →
      (∀ gn, AdsrCall.setGain gn ∈ calls → 0 ≤ sqrt gn ∧ sqrt gn ≤ G) →
      0 ≤ a.gain_lvl → a.gain_lvl ≤ G →
      AdsrInv a (-(max di ri) * D) (max 1 G) →
      AdsrInv (a.runCalls sqrt calls) (-(max di ri) * D) (max 1 G) := by
  induction calls with
  | nil =>
    intro a _ _ _ _ _ _ _ _ hinv
    exact hinv
  | cons c rest ih =>
    intro a ha1 ha2 ha3 ha4 hdt hsg hg0 hgG hinv
    subst ha1; subst ha2; subst ha3; subst ha4
    cases c with
    | advance dt held =>
      have hd := hdt dt held (List.mem_cons_self _ _)
      have hp := advance_params a dt held
      have hinv' : AdsrInv (a.advance dt held).1
          (-(max a.dec_inc a.rel_inc) * D) (max 1 G) :=
        advance_inv a held dt D G hd.1 hd.2 hD hsl0 hsl1 hai hdi hri hg0 hgG hinv
      show AdsrInv ((a.advance dt held).1.runCalls sqrt rest) _ _
      exact ih (a.advance dt held).1 hp.1 hp.2.1 hp.2.2.1 hp.2.2.2.1
        (fun dt' held' hm => hdt dt' held' (List.mem_cons_of_mem _ hm))
        (fun gn hm => hsg gn (List.mem_cons_of_mem _ hm))
        (by rw [hp.2.2.2.2]; exact hg0) (by rw [hp.2.2.2.2]; exact hgG) hinv'
    | setGain gn =>
      have hs := hsg gn (List.mem_cons_self _ _)
      show AdsrInv ((a.set_gain sqrt gn).runCalls sqrt rest) _ _
      exact ih (a.set_gain sqrt gn) rfl rfl rfl rfl
        (fun dt' held' hm => hdt dt' held' (List.mem_cons_of_mem _ hm))
        (fun gn' hm => hsg gn' (List.mem_cons_of_mem _ hm))
        hs.1 hs.2 hinv

lemma le_gainBound (sqrt : ℚ → ℚ) (gain0 : ℚ) (calls : List (AdsrCall ℚ)) :
    sqrt gain0 ≤ gainBound sqrt gain0 calls := by
  induction calls with
  | nil => exact le_refl _
  | cons c rest ih =>
    cases c with
    | advance dt held => exact ih
    | setGain g => exact le_trans ih (le_max_right _ _)

lemma setGain_le_gainBound (sqrt : ℚ → ℚ) (gain0 : ℚ)
    (calls : List (AdsrCall ℚ)) :
    ∀ g, AdsrCall.setGain g ∈ calls → sqrt g ≤ gainBound sqrt gain0 calls := by
  induction calls with
  | nil => simp
  | cons c rest ih =>
    intro g hm
    cases c with
    | advance dt held =>
      rcases List.mem_cons.1 hm with h | h
      · exact AdsrCall.noConfusion h
      · exact ih g h
    | setGain g' =>
      rcases List.mem_cons.1 hm with h | h
      · obtain ⟨rfl⟩ := AdsrCall.setGain.inj h
        exact le_max_left _ _
      · exact le_trans (ih g h) (le_max_right _ _)

lemma gate_iterate_add (g : Gate) (b : Bool) (m n : ℕ) :
    g.iterate b (m + n) = (g.iterate b m).iterate b n := by
  induction m generalizing g with
  | zero => rw [Nat.zero_add]; rfl
  | succ m ih =>
    rw [Nat.succ_add]
    exact ih (g.update b).2

end Lemmas

/-! ## C1

The spec claims a full command queue makes `noteOn`/`noteOff`/
`setFeedbackEnabled` drop the event or report backpressure, never block.  The
code sends through `SyncSender::send(..).unwrap()` on the `sync_channel(128)`
created by `init_synth`, which *blocks* the caller while the queue is full. -/

/-- C1 (counterexample): with the 128-slot command queue full, the send
performed by `SynthController::note_on` blocks the caller instead of dropping
the event or signalling a backpressure failure. -/
theorem C1_full_queue_blocks :
    SynthController.note_on (List.replicate 128 (SynthMessage.NoteOff 0)) 60 100 =
      SendResult.wouldBlock := by
  simp [SynthController.note_on, SynthController.send, syncSend, synthChannelBound]

/-- C1 (amended): `noteOn`, `noteOff` and `setFeedbackEnabled` all send
through the bounded queue of capacity 128; while the queue is below capacity
the message is enqueued in order, and when the queue is full the send blocks
the caller until the audio thread drains a slot (it neither drops the event
nor signals a failure; the `.unwrap()` can panic only if the receiver was
dropped). -/
theorem C1_send_behaviour (queue : List SynthMessage) (msg : SynthMessage)
    (note velocity : ℕ) :
    SynthController.note_on queue note velocity =
        SynthController.send queue (.NoteOn note velocity) ∧
    SynthController.note_off queue note =
        SynthController.send queue (.NoteOff note) ∧
    SynthController.enable_ui_feedback queue =
        SynthController.send queue (.SetUiFeedback (some ())) ∧
    (queue.length < 128 → SynthController.send queue msg = .sent (queue ++ [msg])) ∧
    (128 ≤ queue.length → SynthController.send queue msg = .wouldBlock) := by
  refine ⟨rfl, rfl, rfl, fun h => ?_, fun h => ?_⟩
  · simp [SynthController.send, syncSend, synthChannelBound, h]
  · simp [SynthController.send, syncSend, synthChannelBound, Nat.not_lt.2 h]

/-- C1 witness: an empty queue accepts a message; a full queue blocks. -/
theorem C1_send_behaviour_witness :
    SynthController.send [] (.NoteOff 3) = .sent [.NoteOff 3] ∧
    SynthController.send (List.replicate 128 (.NoteOff 0)) (.NoteOff 3) =
      .wouldBlock :=
  ⟨(C1_send_behaviour [] (.NoteOff 3) 0 0).2.2.2.1 (by simp),
   (C1_send_behaviour (List.replicate 128 (.NoteOff 0)) (.NoteOff 3) 0 0).2.2.2.2
     (by simp)⟩

/-! ## C3 -/

/-- C3: `Adsr::advance(sample_dt, value)` returns the square of the
envelope's current position (the position sampled at entry, which is also
what `Adsr::value` exposes), for every state and every input. -/
theorem C3_advance_returns_square (a : Adsr ℚ) (sample_dt : ℚ) (value : Bool) :
    (a.advance sample_dt value).2 = a.value * a.value := rfl

/-! ## C6 -/

/-- C6: `Gate::update` performs exactly one transition and returns the newly
stored state, and a constant input never produces a rising or falling edge
after the call that reported the transition: from any state, every update
beyond the first with the same input value yields `High`/`Low`, never an
edge state again. -/
theorem C6_gate_edges_fire_once (g : Gate) (b : Bool) (n : ℕ) :
    (g.update b).1 = (g.update b).2.val ∧
    (g.iterate b (n + 2)).val.is_rising_edge = false ∧
    (g.iterate b (n + 2)).val.is_falling_edge = false := by
  have h2 : (g.iterate b (n + 2)).val = if b then GateState.High else GateState.Low := by
    have : n + 2 = 2 + n := Nat.add_comm n 2
    rw [this, gate_iterate_add]
    cases g with
    | mk s =>
      rw [show (Gate.mk s).iterate b 2 =
            Gate.mk (if b then GateState.High else GateState.Low) from ?_]
      · exact gate_iterate_absorb b n
      · cases s <;> cases b <;> rfl
  refine ⟨gate_update_fst g b, ?_, ?_⟩ <;> rw [h2] <;> cases b <;> rfl

/-! ## C8 -/

/-- C8: `VoiceBank::note_off` on a note with no matching voice is a no-op:
no voice changes and the pan seed is untouched. -/
theorem C8_note_off_unknown_noop (B : VoiceBank ℚ) (note : ℕ)
    (h : ∀ v ∈ B.voices, v.note ≠ note) : B.note_off note = B := by
  cases B with
  | mk voices pan_seed =>
    simp only [VoiceBank.note_off]
    rw [releaseFirst_of_not_mem note voices h]

/-! ## C2

The spec claims the envelope position stays within `[0, currentPeakGain]`.
The code violates the upper end: the Attack branch clamps with
`self.position.min(1.0)`, not with the peak, so the position overshoots a
peak gain below the attack step (e.g. a velocity-0 note has peak 0 and the
position still ramps); a rising edge during Decay/Release also skips the
lower clamp.  What the state machine does maintain is proved below. -/

/-- C2 (counterexample): with the voice envelope parameters and a gain of 0
(a `noteOn` of velocity 0: `0.7 * (0/127)² = 0`), two `advance` calls at the
real sample rate (`dt = 1/44100`, held) leave the position strictly above the
current peak gain `sqrt 0 = 0`, outside the claimed `[0, peak]` interval. -/
theorem C2_position_exceeds_peak :
    ¬ ((((Adsr.new Real.sqrt 0.03 0.2 0.5 4 0).advance (1/44100) true).1.advance
          (1/44100) true).1.position ≤
        (((Adsr.new Real.sqrt 0.03 0.2 0.5 4 0).advance (1/44100) true).1.advance
          (1/44100) true).1.gain_lvl) := by
  have e0 : Adsr.new Real.sqrt 0.03 0.2 0.5 4 (0:ℝ) =
      Adsr.mk .Silence 0 ⟨.Low⟩ 0 (100/3) (5/2) (1/2) (1/8) := by
    unfold Adsr.new
    norm_num [Real.sqrt_zero, Gate.new, max_eq_left, min_eq_left]
  rw [e0]
  have e1 : ((Adsr.mk AdsrState.Silence 0 ⟨.Low⟩ 0 (100/3) (5/2) (1/2)
      (1/8) : Adsr ℝ).advance (1/44100) true).1 =
      Adsr.mk .Attack 0 ⟨.RisingEdge⟩ 0 (100/3) (5/2) (1/2) (1/8) := rfl
  rw [e1]
  have e2 : ((Adsr.mk AdsrState.Attack 0 ⟨.RisingEdge⟩ 0 (100/3) (5/2) (1/2)
      (1/8) : Adsr ℝ).advance (1/44100) true).1 =
      Adsr.mk .Decay (1/1323) ⟨.High⟩ 0 (100/3) (5/2) (1/2) (1/8) := by
    norm_num [Adsr.advance, Gate.update, Adsr.update, min_def]
  rw [e2]
  norm_num

/-- C2 (amended): for an envelope built by `Adsr::new` and driven by any
sequence of `advance`/`set_gain` calls whose time steps lie in `[0, D]` and
whose stored peak levels are nonnegative, the position is pinned to 0 in
`Silence`, is nonnegative in `Decay`/`Sustain`/`Release`, and stays within
`[-(max decayRate releaseRate) * D, max 1 P]`, where `P` is the largest peak
level stored over the run.  (The claimed `[0, currentPeakGain]` fails: the
attack clamp is against 1, not the peak, and a re-strike edge during
Decay/Release skips the lower clamp by one decrement step.) -/
theorem C2_position_bounds (sqrt : ℚ → ℚ) (atk dec sus rel gain0 D : ℚ)
    (calls : List (AdsrCall ℚ)) (hD : 0 ≤ D)
    (hdt : ∀ dt held, AdsrCall.advance dt held ∈ calls → 0 ≤ dt ∧ dt ≤ D)
    (hsq0 : 0 ≤ sqrt gain0)
    (hsq : ∀ g, AdsrCall.setGain g ∈ calls → 0 ≤ sqrt g) :
    (((Adsr.new sqrt atk dec sus rel gain0).runCalls sqrt calls).state =
        AdsrState.Silence →
      ((Adsr.new sqrt atk dec sus rel gain0).runCalls sqrt calls).position = 0) ∧
    ((((Adsr.new sqrt atk dec sus rel gain0).runCalls sqrt calls).state =
          AdsrState.Decay ∨
      ((Adsr.new sqrt atk dec sus rel gain0).runCalls sqrt calls).state =
          AdsrState.Sustain ∨
      ((Adsr.new sqrt atk dec sus rel gain0).runCalls sqrt calls).state =
          AdsrState.Release) →
      0 ≤ ((Adsr.new sqrt atk dec sus rel gain0).runCalls sqrt calls).position) ∧
    -(max (Adsr.new sqrt atk dec sus rel gain0).dec_inc
        (Adsr.new sqrt atk dec sus rel gain0).rel_inc) * D ≤
      ((Adsr.new sqrt atk dec sus rel gain0).runCalls sqrt calls).position ∧
    ((Adsr.new sqrt atk dec sus rel gain0).runCalls sqrt calls).position ≤
      max 1 (gainBound sqrt gain0 calls) := by
  have hsl0 : (0:ℚ) ≤ min (max sus 0) 1 := le_min (le_max_right sus 0) zero_le_one
  have hsl1 : min (max sus 0) 1 ≤ 1 := min_le_right _ _
  have hatkpos : (0:ℚ) < max atk 0.00001 :=
    lt_of_lt_of_le (by norm_num) (le_max_right _ _)
  have hdecpos : (0:ℚ) < max dec 0.00001 :=
    lt_of_lt_of_le (by norm_num) (le_max_right _ _)
  have hrelpos : (0:ℚ) < max rel 0.00001 :=
    lt_of_lt_of_le (by norm_num) (le_max_right _ _)
  have hai : (0:ℚ) ≤ 1 / max atk 0.00001 := div_nonneg zero_le_one hatkpos.le
  have hdi : (0:ℚ) ≤ (1 - min (max sus 0) 1) / max dec 0.00001 :=
    div_nonneg (by linarith) hdecpos.le
  have hri : (0:ℚ) ≤ min (max sus 0) 1 / max rel 0.00001 :=
    div_nonneg hsl0 hrelpos.le
  have hmax0 : (0:ℚ) ≤
      max ((1 - min (max sus 0) 1) / max dec 0.00001)
        (min (max sus 0) 1 / max rel 0.00001) :=
    le_trans hdi (le_max_left _ _)
  have hinv0 : AdsrInv (Adsr.new sqrt atk dec sus rel gain0)
      (-(max ((1 - min (max sus 0) 1) / max dec 0.00001)
          (min (max sus 0) 1 / max rel 0.00001)) * D)
      (max 1 (gainBound sqrt gain0 calls)) := by
    refine ⟨fun _ => rfl, adsr_not_decaying (by simp [Adsr.new])
      (by simp [Adsr.new]) (by simp [Adsr.new]), ?_, ?_⟩
    · show _ ≤ (0:ℚ)
      have := mul_nonneg hmax0 hD
      linarith
    · show (0:ℚ) ≤ _
      exact le_trans zero_le_one (le_max_left _ _)
  have h := runCalls_inv sqrt D (gainBound sqrt gain0 calls) _ _ _ _ hD hsl0 hsl1
    hai hdi hri calls (Adsr.new sqrt atk dec sus rel gain0) rfl rfl rfl rfl
    hdt (fun gn hm => ⟨hsq gn hm, setGain_le_gainBound sqrt gain0 calls gn hm⟩)
    hsq0 (le_gainBound sqrt gain0 calls) hinv0
  exact ⟨h.1, h.2.1, h.2.2.1, h.2.2.2⟩

/-- C2 witness: the amended bounds instantiated on the voice envelope
parameters with gain 0, one held `advance` step of `dt = 1` bounded by
`D = 1`. -/
theorem C2_position_bounds_witness :
    (∀ dt held, AdsrCall.advance dt held ∈ [AdsrCall.advance (1:ℚ) true] →
      0 ≤ dt ∧ dt ≤ 1) ∧
    -(max (Adsr.new id 0.03 0.2 0.5 4 (0:ℚ)).dec_inc
        (Adsr.new id 0.03 0.2 0.5 4 (0:ℚ)).rel_inc) * 1 ≤
      ((Adsr.new id 0.03 0.2 0.5 4 (0:ℚ)).runCalls id
        [AdsrCall.advance 1 true]).position ∧
    ((Adsr.new id 0.03 0.2 0.5 4 (0:ℚ)).runCalls id
        [AdsrCall.advance 1 true]).position ≤
      max 1 (gainBound id 0 [AdsrCall.advance 1 true]) := by
  have hdt : ∀ dt held, AdsrCall.advance dt held ∈
      [AdsrCall.advance (1:ℚ) true] → 0 ≤ dt ∧ dt ≤ 1 := by
    intro dt held hm
    rcases List.mem_singleton.1 hm with h
    obtain ⟨rfl, rfl⟩ := AdsrCall.advance.inj h
    norm_num
  exact ⟨hdt,
    (C2_position_bounds id 0.03 0.2 0.5 4 0 1 [AdsrCall.advance 1 true]
      (by norm_num) hdt (by norm_num) (by intro g hm; simp at hm)).2.2⟩

/-! ## C10 -/

/-- C10: `Adsr::new` and `set_gain` store `sqrt(gain)` as the internal peak
level; holding a sustained envelope (gate `High`, position settled at
`sustainLevel * peak`) keeps it in `Sustain` with the position unchanged and
makes `advance` return `sustainLevel² * gain` — not `(sustainLevel * gain)²`,
from which it differs whenever `gain ∉ {0,1}` and the sustain level is
nonzero; and the gain a voice is (re)triggered with is
`0.7 * (min(velocity,127)/127)²`. -/
theorem C10_sqrt_gain_storage (g atk dec sus rel dt : ℝ) (vel : ℕ)
    (a : Adsr ℝ) (hg : 0 ≤ g) (hstate : a.state = .Sustain)
    (hgate : a.gate = ⟨.High⟩) (hpos : a.position = a.sus_lvl * a.gain_lvl)
    (hgl : a.gain_lvl = Real.sqrt g) :
    (Adsr.new Real.sqrt atk dec sus rel g).gain_lvl = Real.sqrt g ∧
    (a.set_gain Real.sqrt g).gain_lvl = Real.sqrt g ∧
    (a.advance dt true).1.state = .Sustain ∧
    (a.advance dt true).1.position = a.position ∧
    (a.advance dt true).2 = a.sus_lvl ^ 2 * g ∧
    (g ≠ 0 → g ≠ 1 → a.sus_lvl ≠ 0 →
      a.sus_lvl ^ 2 * g ≠ (a.sus_lvl * g) ^ 2) ∧
    (noteOnGain vel : ℝ) = 0.7 * (((min vel 127 : ℕ) : ℝ) / 127) ^ 2 := by
  obtain ⟨st, pos, gt, gl, ai, di, sl, ri⟩ := a
  dsimp only at hstate hgate hpos hgl ⊢
  subst hstate
  subst hgate
  refine ⟨rfl, rfl, rfl, rfl, ?_, ?_, ?_⟩
  · show pos * pos = sl ^ 2 * g
    rw [hpos, hgl]
    linear_combination sl ^ 2 * Real.mul_self_sqrt hg
  · intro h0 h1 hsus heq
    have hfac : sl ^ 2 * (g * (1 - g)) = 0 := by linear_combination heq
    rcases mul_eq_zero.1 hfac with h | h
    · exact hsus ((pow_eq_zero_iff (by norm_num : (2:ℕ) ≠ 0)).1 h)
    · rcases mul_eq_zero.1 h with h | h
      · exact h0 h
      · exact h1 (by linarith)
  · simp only [noteOnGain, midi_velocity_to_gain]
    ring

/-- C10 witness: a sustained envelope with gain `1/4` (peak `sqrt(1/4) =
1/2`, sustain level `1/2`) outputs `(1/2)² * (1/4)` from `advance`. -/
theorem C10_sqrt_gain_storage_witness :
    ((⟨.Sustain, 1/4, ⟨.High⟩, 1/2, 1, 1, 1/2, 1⟩ : Adsr ℝ).advance 1 true).2 =
      (1/2 : ℝ) ^ 2 * (1/4) := by
  have hgl : ((⟨.Sustain, 1/4, ⟨.High⟩, 1/2, 1, 1, 1/2, 1⟩ : Adsr ℝ)).gain_lvl =
      Real.sqrt (1/4) := by
    show (1/2 : ℝ) = Real.sqrt (1/4)
    rw [show (1/4 : ℝ) = (1/2)^2 by norm_num,
      Real.sqrt_sq (by norm_num : (0:ℝ) ≤ 1/2)]
  exact (C10_sqrt_gain_storage (1/4) 1 1 1 1 1 0 _ (by norm_num) rfl rfl
    (by norm_num) hgl).2.2.2.2.1

/-! ## C4 -/

/-- C4: in any bank state the audio thread can reach, the `clean_up` phase of
`fill_buffer` removes exactly the voices whose ADSR is in `Silence` and whose
silence timer exceeds the hysteresis count of 40 render invocations; every
other voice — in particular every released voice still fading — is retained
(and `fill_buffer` is precisely the render phase followed by this
`clean_up`). -/
theorem C4_removal_needs_silence_and_hysteresis (F : FloatOps ℚ) (B : VoiceBank ℚ)
    (h : ReachableBank F B) (msgs : List SynthMessage) (frames : ℕ)
    (sample_dt : ℚ) :
    ((B.render_phase F msgs frames sample_dt).clean_up).voices =
      (B.render_phase F msgs frames sample_dt).voices.filter
        (fun v => !(v.adsr.is_silent && decide (40 < v.silence_timer))) ∧
    (B.fill_buffer F msgs frames sample_dt).1 =
      (B.render_phase F msgs frames sample_dt).clean_up := by
  refine ⟨?_, rfl⟩
  have hpre : ∀ v ∈ (B.process_messages F msgs).voices, v.silence_timer ≤ 40 :=
    process_messages_timer_le F B msgs (reachable_timer_le F B h)
  show List.filter _ _ = List.filter _ _
  apply List.filter_congr
  intro v hv
  have hv' : v ∈ (fillVoices F (B.process_messages F msgs).voices
      (List.replicate frames (0, 0)) sample_dt).1 := hv
  obtain ⟨w, hw, buf, rfl⟩ := mem_fillVoices F _ _ _ v hv'
  by_cases h40 : 40 < ((w.update_and_fill F buf sample_dt).1).silence_timer
  · have hsil := update_and_fill_timer F w buf sample_dt (hpre w hw) h40
    simp [Voice.is_silent, hsil, h40]
  · simp [Voice.is_silent, h40]

/-- C4 witness: from the reachable empty bank, a render invocation with no
pending messages removes exactly the voices matching the silence-plus-
hysteresis predicate (vacuously, there are none). -/
theorem C4_removal_needs_silence_and_hysteresis_witness :
    ((VoiceBank.new.render_phase qOps [] 0 0).clean_up).voices =
      (VoiceBank.new.render_phase qOps [] 0 0).voices.filter
        (fun v => !(v.adsr.is_silent && decide (40 < v.silence_timer))) :=
  (C4_removal_needs_silence_and_hysteresis qOps VoiceBank.new
    ReachableBank.init [] 0 0).1

/-! ## C9 -/

/-- C9: in every bank state reachable by any operation sequence, each stored
pan lies in `[0,1]`; every pan published to the UI snapshot (remapped as
`pan*2-1`) lies in `[-1,1]`; and allocating two fresh voices back-to-back
gives them different pan values. -/
theorem C9_pan_invariants (F : FloatOps ℚ) (ops : List (BankOp ℚ))
    (n1 n2 vel1 vel2 : ℕ) :
    (∀ v ∈ (VoiceBank.runOps F ops).voices, 0 ≤ v.pan ∧ v.pan ≤ 1) ∧
    (∀ u ∈ (VoiceBank.runOps F ops).collect_feedback, -1 ≤ u.pan ∧ u.pan ≤ 1) ∧
    (n1 ≠ n2 → (∀ v ∈ (VoiceBank.runOps F ops).voices, v.note ≠ n1) →
      (∀ v ∈ (VoiceBank.runOps F ops).voices, v.note ≠ n2) →
      ∃ w1 w2,
        ((VoiceBank.runOps F ops).note_on F n1 vel1).voices =
          (VoiceBank.runOps F ops).voices ++ [w1] ∧
        (((VoiceBank.runOps F ops).note_on F n1 vel1).note_on F n2 vel2).voices =
          ((VoiceBank.runOps F ops).note_on F n1 vel1).voices ++ [w2] ∧
        w1.pan ≠ w2.pan) := by
  obtain ⟨⟨hs0, hs1⟩, hpan⟩ := runOps_pan_inv F ops
  refine ⟨hpan, ?_, ?_⟩
  · intro u hu
    rw [VoiceBank.collect_feedback, mem_sortByNote] at hu
    obtain ⟨v, hv, rfl⟩ := List.mem_map.1 hu
    obtain ⟨h0, h1⟩ := hpan v hv
    constructor <;> simp only [] <;> linarith
  · intro hne h1 h2
    set B := VoiceBank.runOps F ops with hB
    have hany1 : B.voices.any (fun v => v.note == n1) = false := by
      rw [List.any_eq_false]
      intro v hv
      simp [h1 v hv]
    have hstep1 : (B.note_on F n1 vel1).voices =
        B.voices ++ [Voice.new F n1 (noteOnGain vel1) ((B.pan_seed - 0.5) * 1.2)] ∧
        (B.note_on F n1 vel1).pan_seed = fractf (B.pan_seed + 2503.0 / 443.0) := by
      unfold VoiceBank.note_on
      simp [hany1]
    have hany2 : (B.note_on F n1 vel1).voices.any (fun v => v.note == n2) = false := by
      rw [List.any_eq_false]
      intro v hv
      rw [hstep1.1, List.mem_append, List.mem_singleton] at hv
      rcases hv with hv | rfl
      · simp [h2 v hv]
      · simpa [Voice.new] using hne
    have hstep2 : ((B.note_on F n1 vel1).note_on F n2 vel2).voices =
        (B.note_on F n1 vel1).voices ++
          [Voice.new F n2 (noteOnGain vel2)
            (((B.note_on F n1 vel1).pan_seed - 0.5) * 1.2)] := by
      conv_lhs => rw [VoiceBank.note_on]
      simp [hany2]
    refine ⟨_, _, hstep1.1, hstep2, ?_⟩
    have hs'0 : 0 ≤ (B.note_on F n1 vel1).pan_seed ∧
        (B.note_on F n1 vel1).pan_seed < 1 := by
      rw [hstep1.2]
      exact fractf_bounds _ (add_nonneg hs0 (by norm_num))
    have hw1 : (Voice.new F n1 (noteOnGain vel1) ((B.pan_seed - 0.5) * 1.2)).pan =
        0.6 * B.pan_seed + 0.2 := by
      show clampf ((B.pan_seed - 0.5) * 1.2 * 0.5 + 0.5) 0 1 = 0.6 * B.pan_seed + 0.2
      rw [show (B.pan_seed - 0.5) * 1.2 * 0.5 + 0.5 = 0.6 * B.pan_seed + 0.2 by ring]
      exact clampf_eq_self _ _ _ (by linarith) (by linarith)
    have hw2 : (Voice.new F n2 (noteOnGain vel2)
          (((B.note_on F n1 vel1).pan_seed - 0.5) * 1.2)).pan =
        0.6 * (B.note_on F n1 vel1).pan_seed + 0.2 := by
      show clampf (((B.note_on F n1 vel1).pan_seed - 0.5) * 1.2 * 0.5 + 0.5) 0 1 =
        0.6 * (B.note_on F n1 vel1).pan_seed + 0.2
      rw [show ((B.note_on F n1 vel1).pan_seed - 0.5) * 1.2 * 0.5 + 0.5 =
        0.6 * (B.note_on F n1 vel1).pan_seed + 0.2 by ring]
      exact clampf_eq_self _ _ _ (by linarith [hs'0.1]) (by linarith [hs'0.2])
    rw [hw1, hw2]
    intro heq
    have hss' : B.pan_seed = (B.note_on F n1 vel1).pan_seed := by linarith
    have hfr : (B.note_on F n1 vel1).pan_seed =
        B.pan_seed + 2503.0 / 443.0 -
          ((⌊B.pan_seed + 2503.0 / 443.0⌋ : ℤ) : ℚ) := by
      rw [hstep1.2]
      exact fractf_of_nonneg _ (add_nonneg hs0 (by norm_num))
    have hfloor : ((⌊B.pan_seed + 2503.0 / 443.0⌋ : ℤ) : ℚ) = 2503 / 443 := by
      rw [← hss'] at hfr
      rw [show (2503.0 : ℚ) / 443.0 = 2503 / 443 by norm_num] at hfr ⊢
      linarith
    have hcast : ((443 * ⌊B.pan_seed + 2503.0 / 443.0⌋ : ℤ) : ℚ) = 2503 := by
      push_cast
      rw [hfloor]
      ring
    have hint : (443 * ⌊B.pan_seed + 2503.0 / 443.0⌋ : ℤ) = 2503 := by
      exact_mod_cast hcast
    omega

/-- C9 witness: on the empty bank, allocating notes 60 then 61 back-to-back
produces two voices with different pan values. -/
theorem C9_pan_invariants_witness :
    ∃ w1 w2,
      ((VoiceBank.runOps qOps []).note_on qOps 60 100).voices =
        (VoiceBank.runOps qOps []).voices ++ [w1] ∧
      (((VoiceBank.runOps qOps []).note_on qOps 60 100).note_on qOps 61 90).voices =
        ((VoiceBank.runOps qOps []).note_on qOps 60 100).voices ++ [w2] ∧
      w1.pan ≠ w2.pan :=
  (C9_pan_invariants qOps [] 60 61 100 90).2.2 (by decide)
    (by simp [VoiceBank.runOps, VoiceBank.new]) (by simp [VoiceBank.runOps, VoiceBank.new])

/-! ## C5 -/

/-- C5: when the bank already holds a voice for `note`, `note_on` retriggers
that voice in place: one voice (the first match) is replaced by its
`restart`, every other voice and the pan seed are untouched, and the count
does not grow; `restart` updates the ADSR peak gain to the velocity-derived
gain, sets `active`, resets the silence timer, and leaves the envelope
position and state, oscillator phase, pan and note unchanged. -/
theorem C5_retrigger_in_place (F : FloatOps ℚ) (B : VoiceBank ℚ)
    (note velocity : ℕ) (h : ∃ v ∈ B.voices, v.note = note) :
    ((B.note_on F note velocity).voices.length = B.voices.length) ∧
    ((B.note_on F note velocity).pan_seed = B.pan_seed) ∧
    (∃ i, ∃ hi : i < B.voices.length,
      (B.voices.get ⟨i, hi⟩).note = note ∧
      (B.note_on F note velocity).voices =
        B.voices.set i ((B.voices.get ⟨i, hi⟩).restart F (noteOnGain velocity))) ∧
    (∀ (w : Voice ℚ) (g : ℚ),
      (w.restart F g).adsr.position = w.adsr.position ∧
      (w.restart F g).adsr.state = w.adsr.state ∧
      (w.restart F g).adsr.gain_lvl = F.sqrt g ∧
      (w.restart F g).phase = w.phase ∧
      (w.restart F g).pan = w.pan ∧
      (w.restart F g).note = w.note ∧
      (w.restart F g).active = true ∧
      (w.restart F g).silence_timer = 0) := by
  have hany : B.voices.any (fun v => v.note == note) = true := by
    obtain ⟨v, hv, hvn⟩ := h
    exact List.any_eq_true.2 ⟨v, hv, by simp [hvn]⟩
  obtain ⟨i, hi, hnote, heq⟩ :=
    restartFirst_eq_set F (noteOnGain velocity) note B.voices h
  refine ⟨?_, ?_, ⟨i, hi, hnote, ?_⟩, ?_⟩
  · simp [VoiceBank.note_on, hany, heq]
  · simp [VoiceBank.note_on, hany]
  · simp [VoiceBank.note_on, hany, heq]
  · intro w g
    refine ⟨rfl, rfl, rfl, rfl, rfl, rfl, rfl, rfl⟩

/-- C5 witness: retriggering note 60 at a new velocity on a bank that holds
a single voice for note 60 keeps the voice count at one. -/
theorem C5_retrigger_in_place_witness :
    (∃ v ∈ (VoiceBank.new.note_on qOps 60 100).voices, v.note = 60) ∧
    ((VoiceBank.new.note_on qOps 60 100).note_on qOps 60 30).voices.length =
      (VoiceBank.new.note_on qOps 60 100).voices.length :=
  ⟨by decide,
   (C5_retrigger_in_place qOps (VoiceBank.new.note_on qOps 60 100) 60 30
     (by decide)).1⟩

/-! ## C7 -/

/-- C7: in every bank state reachable from the empty bank by any sequence of
`note_on`, `note_off`, render and `clean_up` operations, the voices carry
pairwise distinct note values (at most one live voice per note). -/
theorem C7_at_most_one_voice_per_note (F : FloatOps ℚ) (ops : List (BankOp ℚ)) :
    (((VoiceBank.runOps F ops).voices).map (·.note)).Nodup := by
  suffices hgen : ∀ (B : VoiceBank ℚ), (B.voices.map (·.note)).Nodup →
      ((((ops.foldl (VoiceBank.applyOp F) B)).voices).map (·.note)).Nodup by
    exact hgen VoiceBank.new (by simp [VoiceBank.new])
  induction ops with
  | nil => exact fun B h => h
  | cons op rest ih =>
    intro B h
    exact ih (B.applyOp F op) (applyOp_nodup F B op h)

/-! ## C8 -/

/-- C8 witness: `note_off 60` on the empty bank leaves it unchanged. -/
theorem C8_note_off_unknown_noop_witness :
    (∀ v ∈ (VoiceBank.new : VoiceBank ℚ).voices, v.note ≠ 60) ∧
    (VoiceBank.new : VoiceBank ℚ).note_off 60 = VoiceBank.new :=
  ⟨by simp [VoiceBank.new],
   C8_note_off_unknown_noop VoiceBank.new 60 (by simp [VoiceBank.new])⟩

end Tunebox
